import Mathlib

/-!
Shallow embedding of the battery dispatch optimization engine of the
`sun-bat-boost` ml-svc: the greedy heuristic solver and the MILP constraint
system (`optim/classical_milp.py`), the QUBO builder (`quantum/qubo.py`),
the approximate annealing / QAOA solvers (`quantum/anneal_neal.py`,
`quantum/qaoa_qiskit.py`), and the dispatch router (`routers/quantum.py`).

Python floats are modelled as rationals, Python dict/list accesses that can
raise are modelled in `Except String`, and the external MILP capability
(OR-Tools) is modelled as an oracle parameter.  Randomness (`random.choice`)
is modelled as an explicit bit source `g : Nat -> Nat -> Bool` (draw index,
bit position).
-/

/-- The optional `constraints` dict of a dispatch request.  A `none` field is
an absent key; `constraints.get(key, default)` is modelled by `cget`. -/
structure Constraints where
  P_ch_max : Option ℚ
  P_dis_max : Option ℚ
  soc_min : Option ℚ
  soc_max : Option ℚ
  eta_ch : Option ℚ
  eta_dis : Option ℚ
  export_cap : Option ℚ
deriving DecidableEq

/-- `constraints.get(key, default)`. -/
def cget (o : Option ℚ) (d : ℚ) : ℚ := o.getD d

/-- The empty constraints dict. -/
def noConstraints : Constraints := ⟨none, none, none, none, none, none, none⟩

/-- One hour of a returned schedule (the per-hour dict built by both
`solve_milp` and `solve_heuristic`). -/
structure HourPlan where
  hour : ℕ
  charge_kw : ℚ
  discharge_kw : ℚ
  import_kw : ℚ
  export_kw : ℚ
deriving DecidableEq

/-- The `{schedule, soc_series, cost}` result shape shared by the MILP and
heuristic paths. -/
structure HeurOut where
  schedule : List HourPlan
  soc_series : List ℚ
  cost : ℚ
deriving DecidableEq

/-- Python list indexing `xs[t]`; out of range raises `IndexError`. -/
def getIdx (xs : List ℚ) (t : ℕ) : Except String ℚ :=
  match xs[t]? with
  | some v => Except.ok v
  | none => Except.error "IndexError"

/-- One iteration of the greedy controller loop of `solve_heuristic`
(`classical_milp.py` lines 95-109): returns `((charge_kw, discharge_kw),
new_soc)`.  The charge / discharge thresholds 0.9 and 0.2 are hardcoded in
the source.  A zero discharge-efficiency denominator raises
`ZeroDivisionError` exactly as in Python. -/
def heurStep (c : Constraints) (avg price pvt loadt soc : ℚ) :
    Except String ((ℚ × ℚ) × ℚ) :=
  let net := loadt - pvt
  if price < avg ∧ soc < 9/10 ∧ net < 0 then
    let ch := min (min (cget c.P_ch_max 5) |net|) ((9/10 - soc) * 10)
    Except.ok ((ch, 0), min (9/10) (soc + ch * cget c.eta_ch (19/20) / 10))
  else if avg < price ∧ 1/5 < soc ∧ 0 < net then
    let ed := cget c.eta_dis (19/20)
    let dis := min (min (cget c.P_dis_max 5) net) ((soc - 1/5) * 10 * ed)
    if ed * 10 = 0 then Except.error "ZeroDivisionError"
    else Except.ok ((0, dis), max (1/5) (soc - dis / (ed * 10)))
  else Except.ok ((0, 0), soc)

/-- The main loop of `solve_heuristic`, with `k` hours left to process
starting at hour `t` with state of charge `soc`.  Each hour appends an
`HourPlan` (with import/export derived from the residual and the export
clipped to `export_cap`) and the post-hour SoC. -/
def heurRun (c : Constraints) (avg : ℚ) (prices pv load : List ℚ) :
    ℕ → ℕ → ℚ → Except String (List HourPlan × List ℚ)
  | 0, _, _ => Except.ok ([], [])
  | k + 1, t, soc =>
    match getIdx prices t with
    | Except.error e => Except.error e
    | Except.ok price =>
      match getIdx pv t with
      | Except.error e => Except.error e
      | Except.ok pvt =>
        match getIdx load t with
        | Except.error e => Except.error e
        | Except.ok loadt =>
          match heurStep c avg price pvt loadt soc with
          | Except.error e => Except.error e
          | Except.ok r =>
            match heurRun c avg prices pv load k (t + 1) r.2 with
            | Except.error e => Except.error e
            | Except.ok rest =>
              Except.ok
                (⟨t, r.1.1, r.1.2, max 0 ((loadt - pvt) + r.1.1 - r.1.2),
                  min (max 0 (-((loadt - pvt) + r.1.1 - r.1.2))) (cget c.export_cap 5)⟩
                  :: rest.1,
                 r.2 :: rest.2)

/-- The total-cost sum of `solve_heuristic` (line 126). -/
def heurCost (prices : List ℚ) (sched : List HourPlan) : ℚ :=
  (List.zip prices sched).foldl
    (fun acc pr => acc + pr.1 * pr.2.import_kw - pr.1 * (1/10) * pr.2.export_kw) 0

/-- The fixed initial state of charge 0.5 (`soc = 0.5` in both solvers). -/
def initSoc : ℚ := 1/2

/-- `solve_heuristic(prices, pv, load, constraints)`: average-price division
raises `ZeroDivisionError` when the prices list is empty; otherwise a single
greedy pass from the fixed initial SoC 0.5. -/
def solve_heuristic (prices pv load : List ℚ) (c : Constraints) :
    Except String HeurOut :=
  if prices.length = 0 then Except.error "ZeroDivisionError"
  else
    match heurRun c (prices.sum / (prices.length : ℚ)) prices pv load
        prices.length 0 initSoc with
    | Except.error e => Except.error e
    | Except.ok r => Except.ok ⟨r.1, r.2, heurCost prices r.1⟩

/-- A candidate assignment to the decision variables created by `solve_milp`
(hour-indexed continuous power / SoC variables and the 0-1 indicator
variables `x_ch`, `x_dis`). -/
structure MilpAssign where
  pch : ℕ → ℚ
  pdis : ℕ → ℚ
  pimp : ℕ → ℚ
  pexp : ℕ → ℚ
  soc : ℕ → ℚ
  xch : ℕ → ℚ
  xdis : ℕ → ℚ

/-- The full constraint system built by `solve_milp` (`classical_milp.py`
lines 25-51): variable domains, power balance, mutual exclusion linking, SoC
bounds, the fixed initial SoC 0.5, and the SoC recursion.  An OPTIMAL status
from the external solver yields exactly an assignment satisfying this. -/
def milpFeasible (prices pv load : List ℚ) (c : Constraints) (a : MilpAssign) : Prop :=
  (∀ t, t < prices.length →
    (0 ≤ a.pch t ∧ a.pch t ≤ cget c.P_ch_max 5) ∧
    (0 ≤ a.pdis t ∧ a.pdis t ≤ cget c.P_dis_max 5) ∧
    (0 ≤ a.pimp t) ∧
    (0 ≤ a.pexp t ∧ a.pexp t ≤ cget c.export_cap 5) ∧
    (cget c.soc_min (1/10) ≤ a.soc t ∧ a.soc t ≤ cget c.soc_max 1) ∧
    (a.xch t = 0 ∨ a.xch t = 1) ∧
    (a.xdis t = 0 ∨ a.xdis t = 1) ∧
    (a.pimp t + pv.getD t 0 + a.pdis t = load.getD t 0 + a.pch t + a.pexp t) ∧
    (a.xch t + a.xdis t ≤ 1) ∧
    (a.pch t ≤ cget c.P_ch_max 5 * a.xch t) ∧
    (a.pdis t ≤ cget c.P_dis_max 5 * a.xdis t) ∧
    (0 < t → a.soc t = a.soc (t - 1) + a.pch (t - 1) * cget c.eta_ch (19/20) / 10
      - a.pdis (t - 1) / (cget c.eta_dis (19/20) * 10))) ∧
  (0 < prices.length → a.soc 0 = 1/2)

/-- The schedule `solve_milp` extracts from an optimal assignment
(lines 64-71). -/
def milpSchedule (a : MilpAssign) (T : ℕ) : List HourPlan :=
  (List.range T).map (fun t => ⟨t, a.pch t, a.pdis t, a.pimp t, a.pexp t⟩)

/-- The SoC series `solve_milp` extracts from an optimal assignment
(line 72): one value per hour, `T` values in total. -/
def milpSocSeries (a : MilpAssign) (T : ℕ) : List ℚ :=
  (List.range T).map a.soc

/-- Behavior of the external LP/MILP capability for one request:
`unavailable` covers both a failed OR-Tools import and
`CreateSolver` returning no instance, `failure` a solver exception,
`nonOptimal` a non-OPTIMAL status, and `optimal` an optimal solve with the
extracted schedule, SoC series and objective value. -/
inductive ExactOutcome where
  | unavailable : ExactOutcome
  | failure : ExactOutcome
  | nonOptimal : ExactOutcome
  | optimal : List HourPlan → List ℚ → ℚ → ExactOutcome

/-- `solve_milp(prices, pv, load, constraints)`: every non-optimal outcome
of the exact capability falls back to `solve_heuristic`. -/
def solve_milp (ex : ExactOutcome) (prices pv load : List ℚ) (c : Constraints) :
    Except String HeurOut :=
  match ex with
  | ExactOutcome.optimal sched socs cost => Except.ok ⟨sched, socs, cost⟩
  | _ => solve_heuristic prices pv load c

/-- Decimal digit characters, for mirroring Python f-string rendering of an
hour index. -/
def digitChar (d : ℕ) : Char :=
  match d with
  | 0 => '0'
  | 1 => '1'
  | 2 => '2'
  | 3 => '3'
  | 4 => '4'
  | 5 => '5'
  | 6 => '6'
  | 7 => '7'
  | 8 => '8'
  | 9 => '9'
  | _ => '?'

/-- Little-endian base-10 digits by structural recursion on a fuel bound
(so that it evaluates inside the kernel). -/
def natDigitsAux : ℕ → ℕ → List ℕ
  | 0, _ => []
  | _ + 1, 0 => []
  | fuel + 1, n + 1 => (n + 1) % 10 :: natDigitsAux fuel ((n + 1) / 10)

/-- Decimal rendering of a natural number (what `f"{t}"` produces). -/
def natStr (n : ℕ) : String :=
  if n = 0 then "0" else String.mk ((natDigitsAux n n).reverse.map digitChar)

/-- The per-hour charge-indicator variable name `f"ch_{t}"`. -/
def chName (t : ℕ) : String := "ch_" ++ natStr t

/-- The per-hour discharge-indicator variable name `f"dis_{t}"`. -/
def disName (t : ℕ) : String := "dis_" ++ natStr t

/-- A QUBO as built and consumed by the source: a pair-keyed mapping from
variable-name pairs to coefficients, modelled as its list of entries. -/
abbrev Qubo : Type := List ((String × String) × ℚ)

/-- The fixed mutual-exclusion penalty of `build_qubo` (line 23). -/
def quboPenalty : ℚ := 1000

/-- `build_qubo(prices, pv, load, constraints)` (`quantum/qubo.py`): per hour
a diagonal charge term, a diagonal discharge term, and the fixed
mutual-exclusion penalty entry. -/
def build_qubo (prices pv load : List ℚ) (c : Constraints) : Qubo :=
  (List.range prices.length).flatMap (fun t =>
    [((chName t, chName t), prices.getD t 0 * cget c.P_ch_max 5 / cget c.eta_ch (19/20)),
     ((disName t, disName t), -prices.getD t 0 * cget c.P_dis_max 5 * cget c.eta_dis (19/20)),
     ((chName t, disName t), quboPenalty)])

/-- Code-point lexicographic comparison of character lists, the order Python
uses to compare strings. -/
def charsLtB : List Char → List Char → Bool
  | [], [] => false
  | [], _ :: _ => true
  | _ :: _, [] => false
  | a :: as, b :: bs =>
    if a.val.toNat < b.val.toNat then true
    else if b.val.toNat < a.val.toNat then false
    else charsLtB as bs

/-- Python `a < b` on strings. -/
def strLtB (a b : String) : Bool := charsLtB a.data b.data

/-- Insertion into a string list sorted ascending. -/
def insertSortedStr (x : String) : List String → List String
  | [] => [x]
  | y :: ys => if strLtB y x then y :: insertSortedStr x ys else x :: y :: ys

/-- Ascending sort of string lists, mirroring Python `sorted`. -/
def sortStr (l : List String) : List String := l.foldr insertSortedStr []

/-- Duplicate removal, mirroring Python `set()` construction. -/
def dedupStr : List String → List String
  | [] => []
  | x :: xs => if x ∈ dedupStr xs then dedupStr xs else x :: dedupStr xs

/-- `sorted(set of all endpoints of keys of Q))`: the variable extraction
shared by the annealing and QAOA solvers. -/
def quboVars (Q : Qubo) : List String :=
  sortStr (dedupStr ((Q.map (fun e => [e.1.1, e.1.2])).flatten))

/-- Numeric value of one sampled bit (`int(b)` on a '0'/'1' character). -/
def bitVal (b : Bool) : ℚ := if b then 1 else 0

/-- `dict(zip(variables, [int(b) for b in bitstring]))`. -/
def bitsToAssign (vs : List String) (bits : List Bool) : List (String × ℚ) :=
  List.zip vs (bits.map bitVal)

/-- `calculate_qubo_energy(Q, assignment)` (`anneal_neal.py` lines 71-76):
missing variables contribute 0 through `assignment.get(i, 0)`. -/
def qubo_energy (Q : Qubo) (a : List (String × ℚ)) : ℚ :=
  Q.foldl (fun acc e => acc + e.2 * ((a.lookup e.1.1).getD 0) * ((a.lookup e.1.2).getD 0)) 0

/-- One random bitstring of length `n` (draw number `k` of the bit source). -/
def drawBits (g : ℕ → ℕ → Bool) (k n : ℕ) : List Bool :=
  (List.range n).map (g k)

/-- One random restart of the mock annealer (`anneal_neal.py` lines 60-67):
draw a fresh bitstring and keep it when its energy strictly improves. -/
def annealStep (g : ℕ → ℕ → Bool) (Q : Qubo) (vs : List String) (n : ℕ)
    (best : List Bool × ℚ) (k : ℕ) : List Bool × ℚ :=
  let bs := drawBits g (k + 1) n
  let e := qubo_energy Q (bitsToAssign vs bs)
  if e < best.2 then (bs, e) else best

/-- `solve_mock_anneal(Q)` (`anneal_neal.py` lines 37-69): the annealing
strategy's in-repo fallback.  Empty variable set returns the hardcoded
degenerate result; otherwise one initial random draw plus 20 random
restarts, keeping the best assignment by energy. -/
def solve_mock_anneal (g : ℕ → ℕ → Bool) (Q : Qubo) : List Bool × ℚ :=
  let vs := quboVars Q
  if vs.isEmpty then
    ([true, false, true, false, true, false], -5/2)
  else
    let n := vs.length
    let init := drawBits g 0 n
    (List.range 20).foldl (annealStep g Q vs n)
      (init, qubo_energy Q (bitsToAssign vs init))

/-- Key-membership filter of the qiskit QAOA energy sum
(`qaoa_qiskit.py` line 64): keeps entries with both endpoints assigned. -/
def bothAssigned (a : List (String × ℚ)) (e : (String × String) × ℚ) : Bool :=
  (a.lookup e.1.1).isSome && (a.lookup e.1.2).isSome

/-- `solve_qubo_qaoa(Q)`'s qiskit branch (`qaoa_qiskit.py` lines 29-66):
caps the qubit count at 8, samples one bitstring over the first
`min(n, 8)` variables in sorted order, and sums only QUBO terms with both
endpoints among the assigned variables. -/
def solve_qubo_qaoa_qiskit (g : ℕ → ℕ → Bool) (Q : Qubo) : List Bool × ℚ :=
  let vs := quboVars Q
  let nq := min vs.length 8
  if nq = 0 then ([], 0)
  else
    let bits := drawBits g 0 nq
    let a := bitsToAssign (vs.take nq) bits
    (bits, qubo_energy (Q.filter (bothAssigned a)) a)

/-- `solve_mock_qaoa(Q)` (`qaoa_qiskit.py` lines 72-94): the QAOA
strategy's in-repo fallback; one random bitstring over all variables with
the full-formula energy, or the hardcoded degenerate result when no
variables are referenced. -/
def solve_mock_qaoa (g : ℕ → ℕ → Bool) (Q : Qubo) : List Bool × ℚ :=
  let vs := quboVars Q
  if vs.isEmpty then
    ([true, false, true, false, true, false], -2)
  else
    let bits := drawBits g 0 vs.length
    (bits, qubo_energy Q (bitsToAssign vs bits))

/-- The independent recomputation the spec demands: energy of the returned
bitstring against the original QUBO by the formula
`energy = sum coeff * assignment(i) * assignment(j)`, with the bitstring
assigned to the referenced variables in sorted order. -/
def recomputeEnergy (Q : Qubo) (bits : List Bool) : ℚ :=
  qubo_energy Q (bitsToAssign (quboVars Q) bits)

/-- The body of a `/dispatch` request. -/
structure DispatchReq where
  prices : List ℚ
  pv : List ℚ
  load : List ℚ
  constraints : Constraints
  solver : String

/-- The response dict shapes `dispatch` can produce: a schedule result or a
quantum result with their added `solver` key, the unknown-solver error dict
(which has no `solver` key), or the exception-handler error dict (which
carries the requested solver). -/
inductive Response where
  | schedRes : HeurOut → String → Response
  | quantumRes : List Bool → ℚ → String → Response
  | errorOnly : String → Response
  | errorSolver : String → String → Response
deriving DecidableEq

/-- `dispatch(req)` (`routers/quantum.py` lines 64-88), parametrized by the
external exact-capability outcome and by the two approximate solver
callables (whichever branch of their availability applies). -/
def dispatch (ex : ExactOutcome) (annealFn qaoaFn : Qubo → List Bool × ℚ)
    (req : DispatchReq) : Response :=
  if req.solver = "milp" then
    match solve_milp ex req.prices req.pv req.load req.constraints with
    | Except.ok r => Response.schedRes r "milp"
    | Except.error e => Response.errorSolver e req.solver
  else
    let Q := build_qubo req.prices req.pv req.load req.constraints
    if req.solver = "qaoa" then
      let r := qaoaFn Q
      Response.quantumRes r.1 r.2 "qaoa"
    else if req.solver = "anneal" then
      let r := annealFn Q
      Response.quantumRes r.1 r.2 "anneal"
    else Response.errorOnly ("Unknown solver: " ++ req.solver)

/-- The `solver` key of a response dict, when present. -/
def solverField : Response → Option String
  | Response.schedRes _ s => some s
  | Response.quantumRes _ _ s => some s
  | Response.errorOnly _ => none
  | Response.errorSolver _ s => some s

/-- Whether a response is one of the error dict shapes. -/
def isError : Response → Bool
  | Response.errorOnly _ => true
  | Response.errorSolver _ _ => true
  | Response.schedRes _ _ => false
  | Response.quantumRes _ _ _ => false

/-- Validity of the effective battery parameters of a constraints dict, per
the spec's BatterySpec data model: nonnegative power caps and efficiency
factors in `(0, 1]`, after the source's defaults are applied. -/
def validConstraints (c : Constraints) : Prop :=
  0 ≤ cget c.P_ch_max 5 ∧ 0 ≤ cget c.P_dis_max 5 ∧ 0 ≤ cget c.export_cap 5 ∧
  0 < cget c.eta_ch (19/20) ∧ cget c.eta_ch (19/20) ≤ 1 ∧
  0 < cget c.eta_dis (19/20) ∧ cget c.eta_dis (19/20) ≤ 1

instance : DecidablePred validConstraints := fun c => by
  unfold validConstraints
  infer_instance

/-! ## Heuristic solver lemmas -/

theorem getIdx_ok_getD {xs : List ℚ} {t : ℕ} {v : ℚ}
    (h : getIdx xs t = Except.ok v) : xs.getD t 0 = v := by
  unfold getIdx at h
  cases hx : xs[t]? with
  | none => simp [hx] at h
  | some w =>
    simp [hx] at h
    rw [List.getD_eq_getElem?_getD, hx, h]
    rfl

theorem balance_identity (na cap : ℚ) (hcap : 0 ≤ cap) :
    max 0 na - min (max 0 (-na)) cap = na + max 0 (-na - cap) := by
  rcases le_total na 0 with h | h
  · rcases le_total (-na) cap with h2 | h2
    · rw [max_eq_left h, max_eq_right (by linarith : (0 : ℚ) ≤ -na),
        min_eq_left h2, max_eq_left (by linarith : -na - cap ≤ 0)]
      ring
    · rw [max_eq_left h, max_eq_right (by linarith : (0 : ℚ) ≤ -na),
        min_eq_right h2, max_eq_right (by linarith : (0 : ℚ) ≤ -na - cap)]
      ring
  · rw [max_eq_right h, max_eq_left (by linarith : -na ≤ (0 : ℚ)),
      min_eq_left hcap, max_eq_left (by linarith : -na - cap ≤ 0)]
    ring

theorem heurStep_ok_props {c : Constraints} {avg price pvt loadt soc : ℚ}
    {r : (ℚ × ℚ) × ℚ}
    (hv : validConstraints c) (h1 : 1/5 ≤ soc) (h2 : soc ≤ 9/10)
    (h : heurStep c avg price pvt loadt soc = Except.ok r) :
    (1/5 ≤ r.2 ∧ r.2 ≤ 9/10) ∧ r.1.1 * r.1.2 = 0 ∧
    0 ≤ r.1.1 ∧ r.1.1 ≤ cget c.P_ch_max 5 ∧
    0 ≤ r.1.2 ∧ r.1.2 ≤ cget c.P_dis_max 5 := by
  obtain ⟨hch, hdis, hexp, hec0, hec1, hed0, hed1⟩ := hv
  simp only [heurStep] at h
  split_ifs at h with hb1 hb2 hb3
  · obtain ⟨hp1, hp2, hp3⟩ := hb1
    simp only [Except.ok.injEq] at h
    subst h
    have hch0 : 0 ≤ min (min (cget c.P_ch_max 5) |loadt - pvt|) ((9/10 - soc) * 10) :=
      le_min (le_min hch (abs_nonneg _)) (by nlinarith)
    have hq : 0 ≤ min (min (cget c.P_ch_max 5) |loadt - pvt|) ((9/10 - soc) * 10)
        * cget c.eta_ch (19/20) / 10 :=
      div_nonneg (mul_nonneg hch0 hec0.le) (by norm_num)
    refine ⟨⟨le_min (by norm_num) (by linarith), min_le_left _ _⟩,
      mul_zero _, hch0, le_trans (min_le_left _ _) (min_le_left _ _), le_refl 0, hdis⟩
  · obtain ⟨hq1, hq2, hq3⟩ := hb2
    simp only [Except.ok.injEq] at h
    subst h
    have hdis0 : 0 ≤ min (min (cget c.P_dis_max 5) (loadt - pvt))
        ((soc - 1/5) * 10 * cget c.eta_dis (19/20)) :=
      le_min (le_min hdis hq3.le) (by nlinarith)
    have hquot : 0 ≤ min (min (cget c.P_dis_max 5) (loadt - pvt))
        ((soc - 1/5) * 10 * cget c.eta_dis (19/20)) / (cget c.eta_dis (19/20) * 10) :=
      div_nonneg hdis0 (by nlinarith)
    refine ⟨⟨le_max_left _ _, max_le (by norm_num) (by linarith)⟩,
      zero_mul _, le_refl 0, hch, hdis0,
      le_trans (min_le_left _ _) (min_le_left _ _)⟩
  · simp only [Except.ok.injEq] at h
    subst h
    exact ⟨⟨h1, h2⟩, mul_zero _, le_refl 0, hch, le_refl 0, hdis⟩

theorem heurRun_succ_inv {c : Constraints} {avg : ℚ} {prices pv load : List ℚ}
    {k t : ℕ} {soc : ℚ} {sched : List HourPlan} {socs : List ℚ}
    (h : heurRun c avg prices pv load (k + 1) t soc = Except.ok (sched, socs)) :
    ∃ price pvt loadt r rest,
      getIdx prices t = Except.ok price ∧ getIdx pv t = Except.ok pvt ∧
      getIdx load t = Except.ok loadt ∧
      heurStep c avg price pvt loadt soc = Except.ok r ∧
      heurRun c avg prices pv load k (t + 1) r.2 = Except.ok rest ∧
      sched = ⟨t, r.1.1, r.1.2, max 0 ((loadt - pvt) + r.1.1 - r.1.2),
        min (max 0 (-((loadt - pvt) + r.1.1 - r.1.2))) (cget c.export_cap 5)⟩
          :: rest.1 ∧
      socs = r.2 :: rest.2 := by
  rw [heurRun] at h
  cases hgp : getIdx prices t with
  | error e => simp [hgp] at h
  | ok price =>
    simp only [hgp] at h
    cases hgv : getIdx pv t with
    | error e => simp [hgv] at h
    | ok pvt =>
      simp only [hgv] at h
      cases hgl : getIdx load t with
      | error e => simp [hgl] at h
      | ok loadt =>
        simp only [hgl] at h
        cases hst : heurStep c avg price pvt loadt soc with
        | error e => simp [hst] at h
        | ok r =>
          simp only [hst] at h
          cases hrec : heurRun c avg prices pv load k (t + 1) r.2 with
          | error e => simp [hrec] at h
          | ok rest =>
            simp only [hrec, Except.ok.injEq, Prod.mk.injEq] at h
            exact ⟨price, pvt, loadt, r, rest, rfl, rfl, rfl, hst, hrec,
              h.1.symm, h.2.symm⟩

theorem heurRun_ok_lengths {c : Constraints} {avg : ℚ} {prices pv load : List ℚ} :
    ∀ {k t : ℕ} {soc : ℚ} {sched : List HourPlan} {socs : List ℚ},
    heurRun c avg prices pv load k t soc = Except.ok (sched, socs) →
    sched.length = k ∧ socs.length = k := by
  intro k
  induction k with
  | zero =>
    intro t soc sched socs h
    simp only [heurRun, Except.ok.injEq, Prod.mk.injEq] at h
    obtain ⟨h1, h2⟩ := h
    subst h1
    subst h2
    simp
  | succ k ih =>
    intro t soc sched socs h
    obtain ⟨price, pvt, loadt, r, rest, _, _, _, _, hrec, hs, hsoc⟩ :=
      heurRun_succ_inv h
    subst hs
    subst hsoc
    obtain ⟨ih1, ih2⟩ := ih hrec
    simp [ih1, ih2]

theorem heurRun_ok_props {c : Constraints} (hv : validConstraints c)
    {avg : ℚ} {prices pv load : List ℚ} :
    ∀ {k t : ℕ} {soc : ℚ} {sched : List HourPlan} {socs : List ℚ},
    heurRun c avg prices pv load k t soc = Except.ok (sched, socs) →
    1/5 ≤ soc → soc ≤ 9/10 →
    (∀ s ∈ socs, 1/5 ≤ s ∧ s ≤ 9/10) ∧
    (∀ p ∈ sched,
      0 ≤ p.import_kw ∧ 0 ≤ p.export_kw ∧
      p.charge_kw * p.discharge_kw = 0 ∧
      p.charge_kw ≤ cget c.P_ch_max 5 ∧ p.discharge_kw ≤ cget c.P_dis_max 5 ∧
      p.import_kw + pv.getD p.hour 0 + p.discharge_kw
        = load.getD p.hour 0 + p.charge_kw + p.export_kw
          + max 0 (pv.getD p.hour 0 - load.getD p.hour 0 + p.discharge_kw
              - p.charge_kw - cget c.export_cap 5)) := by
  intro k
  induction k with
  | zero =>
    intro t soc sched socs h hs1 hs2
    simp only [heurRun, Except.ok.injEq, Prod.mk.injEq] at h
    obtain ⟨h1, h2⟩ := h
    subst h1
    subst h2
    simp
  | succ k ih =>
    intro t soc sched socs h hs1 hs2
    obtain ⟨price, pvt, loadt, r, rest, hgp, hgv, hgl, hst, hrec, hs, hsoc⟩ :=
      heurRun_succ_inv h
    subst hs
    subst hsoc
    obtain ⟨⟨hr1, hr2⟩, hmx, hch0, hchc, hdis0, hdisc⟩ :=
      heurStep_ok_props hv hs1 hs2 hst
    obtain ⟨ihsoc, ihsched⟩ := ih hrec hr1 hr2
    constructor
    · intro s hs
      rcases List.mem_cons.mp hs with h' | h'
      · subst h'
        exact ⟨hr1, hr2⟩
      · exact ihsoc s h'
    · intro p hp
      rcases List.mem_cons.mp hp with h' | h'
      · subst h'
        have hexp0 : 0 ≤ cget c.export_cap 5 := hv.2.2.1
        have hgvd : pv.getD t 0 = pvt := getIdx_ok_getD hgv
        have hgld : load.getD t 0 = loadt := getIdx_ok_getD hgl
        refine ⟨le_max_left _ _, le_min (le_max_left _ _) hexp0, hmx, hchc, hdisc, ?_⟩
        dsimp only
        rw [hgvd, hgld]
        have hb := balance_identity ((loadt - pvt) + r.1.1 - r.1.2)
          (cget c.export_cap 5) hexp0
        have hgoal : pvt - loadt + r.1.2 - r.1.1 - cget c.export_cap 5
            = -((loadt - pvt) + r.1.1 - r.1.2) - cget c.export_cap 5 := by ring
        rw [hgoal]
        linarith [hb]
      · exact ihsched p h'

theorem solve_heuristic_ok_inv {prices pv load : List ℚ} {c : Constraints}
    {out : HeurOut} (h : solve_heuristic prices pv load c = Except.ok out) :
    prices.length ≠ 0 ∧
    ∃ sched socs,
      heurRun c (prices.sum / (prices.length : ℚ)) prices pv load
        prices.length 0 initSoc = Except.ok (sched, socs) ∧
      out.schedule = sched ∧ out.soc_series = socs := by
  unfold solve_heuristic at h
  by_cases h0 : prices.length = 0
  · rw [if_pos h0] at h
    simp at h
  · rw [if_neg h0] at h
    cases hr : heurRun c (prices.sum / (prices.length : ℚ)) prices pv load
        prices.length 0 initSoc with
    | error e => simp [hr] at h
    | ok r =>
      simp only [hr, Except.ok.injEq] at h
      subst h
      exact ⟨h0, r.1, r.2, rfl, rfl, rfl⟩

/-! ## MILP feasibility lemmas -/

theorem milp_mutual_exclusion {prices pv load : List ℚ} {c : Constraints}
    {a : MilpAssign} (h : milpFeasible prices pv load c a)
    {t : ℕ} (ht : t < prices.length) : a.pch t * a.pdis t = 0 := by
  obtain ⟨hb, _⟩ := h
  obtain ⟨⟨hch0, hchc⟩, ⟨hd0, hdc⟩, _, _, _, hxch, hxdis, _, hsum, hl1, hl2, _⟩ :=
    hb t ht
  rcases hxch with h0 | h1
  · have hz : a.pch t ≤ 0 := by
      rw [h0, mul_zero] at hl1
      exact hl1
    rw [le_antisymm hz hch0]
    ring
  · rcases hxdis with g0 | g1
    · have hz : a.pdis t ≤ 0 := by
        rw [g0, mul_zero] at hl2
        exact hl2
      rw [le_antisymm hz hd0]
      ring
    · exfalso
      rw [h1, g1] at hsum
      norm_num at hsum

/-! ## Shared concrete inputs (the spec's end-to-end scenario and a trivial
feasible MILP assignment) -/

/-- Prices of the spec's T=4 end-to-end scenario. -/
def specPrices : List ℚ := [3/10, 1/4, 1/2, 3/5]

/-- PV series of the spec's T=4 end-to-end scenario. -/
def specPv : List ℚ := [0, 1/2, 6/5, 9/10]

/-- Load series of the spec's T=4 end-to-end scenario. -/
def specLoad : List ℚ := [3/5, 7/10, 4/5, 9/10]

/-- The heuristic output on the spec scenario (all four hours hold). -/
def specOut : HeurOut :=
  ⟨[⟨0, 0, 0, 3/5, 0⟩, ⟨1, 0, 0, 1/5, 0⟩, ⟨2, 0, 0, 0, 2/5⟩, ⟨3, 0, 0, 0, 0⟩],
   [1/2, 1/2, 1/2, 1/2], 21/100⟩

/-- The all-idle MILP assignment: no power flows, SoC pinned at 0.5. -/
def zeroAssign : MilpAssign :=
  ⟨fun _ => 0, fun _ => 0, fun _ => 0, fun _ => 0, fun _ => 1/2,
   fun _ => 0, fun _ => 0⟩

/-! ## Concrete evaluation lemmas -/

/-- The default constraints dict has valid battery parameters. -/
theorem valid_noConstraints : validConstraints noConstraints := by
  norm_num [validConstraints, cget, noConstraints]

/-- The heuristic output on the spec's T=4 scenario. -/
theorem heur_eval_spec :
    solve_heuristic specPrices specPv specLoad noConstraints
      = Except.ok specOut := by
  norm_num [solve_heuristic, heurRun, heurStep, getIdx, heurCost, initSoc, cget,
    noConstraints, specPrices, specPv, specLoad, specOut]

/-- The heuristic output on the one-hour idle input. -/
theorem heur_eval_idle :
    solve_heuristic [1] [0] [0] noConstraints
      = Except.ok ⟨[⟨0, 0, 0, 0, 0⟩], [1/2], 0⟩ := by
  norm_num [solve_heuristic, heurRun, heurStep, getIdx, heurCost, initSoc, cget,
    noConstraints]

/-- The all-idle assignment is feasible for the one-hour idle input with
default constraints. -/
theorem zeroAssign_feasible :
    milpFeasible [1] [0] [0] noConstraints zeroAssign := by
  constructor
  · intro t ht
    have ht0 : t = 0 := by
      simp only [List.length_cons, List.length_nil] at ht
      omega
    subst ht0
    norm_num [zeroAssign, cget, noConstraints]
  · intro h
    norm_num [zeroAssign]

/-! ## Claim C3 -/

/-- Claim C3 (amended): the heuristic path keeps every SoC value inside the
hardcoded interval [0.2, 0.9] (hence inside the default [0.1, 1.0]) but
ignores the constraints' `soc_min`/`soc_max`; the exact (MILP) path bounds
SoC by the constraints' `soc_min`/`soc_max` (defaults 0.1 and 1.0). -/
theorem C3_soc_bounds :
    (∀ prices pv load c out, validConstraints c →
      solve_heuristic prices pv load c = Except.ok out →
      ∀ s ∈ out.soc_series, 1/5 ≤ s ∧ s ≤ 9/10) ∧
    (∀ prices pv load c a, milpFeasible prices pv load c a →
      ∀ s ∈ milpSocSeries a prices.length,
        cget c.soc_min (1/10) ≤ s ∧ s ≤ cget c.soc_max 1) := by
  constructor
  · intro prices pv load c out hv hok s hs
    obtain ⟨h0, sched, socs, hr, hsched, hsocs⟩ := solve_heuristic_ok_inv hok
    rw [hsocs] at hs
    exact (heurRun_ok_props hv hr (by norm_num [initSoc]) (by norm_num [initSoc])).1 s hs
  · intro prices pv load c a hf s hs
    simp only [milpSocSeries, List.mem_map, List.mem_range] at hs
    obtain ⟨t, ht, rfl⟩ := hs
    exact (hf.1 t ht).2.2.2.2.1

/-- Claim C3 counterexample: with constraints soc_min = 0.6, soc_max = 0.7,
the heuristic's SoC series is [0.5], and 0.5 is below the constraints'
soc_min = 3/5 — the SoC series is not within [soc_min, soc_max]. -/
theorem C3_counterexample :
    solve_heuristic [1] [0] [0]
        ⟨none, none, some (3/5), some (7/10), none, none, none⟩
      = Except.ok ⟨[⟨0, 0, 0, 0, 0⟩], [1/2], 0⟩ ∧
    ¬ cget (some ((3 : ℚ)/5)) (1/10) ≤ 1/2 := by
  constructor
  · norm_num [solve_heuristic, heurRun, heurStep, getIdx, heurCost, initSoc, cget]
  · norm_num [cget]

/-- Claim C3 witness: both parts of `C3_soc_bounds` applied at concrete
inputs (the spec scenario for the heuristic, the idle assignment for MILP). -/
theorem C3_witness :
    ((1 : ℚ)/5 ≤ 1/2 ∧ (1 : ℚ)/2 ≤ 9/10) ∧
    (cget noConstraints.soc_min (1/10) ≤ 1/2 ∧
      (1 : ℚ)/2 ≤ cget noConstraints.soc_max 1) :=
  ⟨C3_soc_bounds.1 specPrices specPv specLoad noConstraints specOut
      valid_noConstraints heur_eval_spec (1/2) (by norm_num [specOut]),
   C3_soc_bounds.2 [1] [0] [0] noConstraints zeroAssign zeroAssign_feasible
      (1/2) (by norm_num [milpSocSeries, zeroAssign])⟩

/-! ## Claim C4 -/

/-- Claim C4 (amended): on the MILP path, per-hour power balance holds
exactly for every feasible assignment; on the heuristic path the balance
holds up to an exact deficit of `max 0 (surplus - export_cap)` — the export
is clipped to the cap, so balance fails exactly when the PV surplus after
battery action exceeds the export cap. -/
theorem C4_power_balance :
    (∀ prices pv load c out, validConstraints c →
      solve_heuristic prices pv load c = Except.ok out →
      ∀ p ∈ out.schedule,
        p.import_kw + pv.getD p.hour 0 + p.discharge_kw
          = load.getD p.hour 0 + p.charge_kw + p.export_kw
            + max 0 (pv.getD p.hour 0 - load.getD p.hour 0 + p.discharge_kw
                - p.charge_kw - cget c.export_cap 5)) ∧
    (∀ prices pv load c a, milpFeasible prices pv load c a →
      ∀ t, t < prices.length →
        a.pimp t + pv.getD t 0 + a.pdis t
          = load.getD t 0 + a.pch t + a.pexp t) := by
  constructor
  · intro prices pv load c out hv hok p hp
    obtain ⟨h0, sched, socs, hr, hsched, hsocs⟩ := solve_heuristic_ok_inv hok
    rw [hsched] at hp
    exact ((heurRun_ok_props hv hr (by norm_num [initSoc])
      (by norm_num [initSoc])).2 p hp).2.2.2.2.2
  · intro prices pv load c a hf t ht
    exact (hf.1 t ht).2.2.2.2.2.2.2.1

/-- Claim C4 counterexample: prices [1], pv [10], load [0], default
constraints: the heuristic hour-0 record is import 0, export 5 (clipped from
the surplus 10), and 0 + 10 + 0 = 10 differs from 0 + 0 + 5 = 5 — power
balance fails at that hour. -/
theorem C4_counterexample :
    solve_heuristic [1] [10] [0] noConstraints
      = Except.ok ⟨[⟨0, 0, 0, 0, 5⟩], [1/2], -1/2⟩ ∧
    ¬ ((0 : ℚ) + 10 + 0 = 0 + 0 + 5) := by
  constructor
  · norm_num [solve_heuristic, heurRun, heurStep, getIdx, heurCost, initSoc, cget,
      noConstraints]
  · norm_num

/-- Claim C4 witness: both parts of `C4_power_balance` applied at concrete
inputs. -/
theorem C4_witness :
    ((3 : ℚ)/5 + specPv.getD 0 0 + 0
      = specLoad.getD 0 0 + 0 + 0
        + max 0 (specPv.getD 0 0 - specLoad.getD 0 0 + 0 - 0
            - cget noConstraints.export_cap 5)) ∧
    ((0 : ℚ) + ([0] : List ℚ).getD 0 0 + 0
      = ([0] : List ℚ).getD 0 0 + 0 + 0) :=
  ⟨C4_power_balance.1 specPrices specPv specLoad noConstraints specOut
      valid_noConstraints heur_eval_spec ⟨0, 0, 0, 3/5, 0⟩ (by norm_num [specOut]),
   C4_power_balance.2 [1] [0] [0] noConstraints zeroAssign zeroAssign_feasible
      0 (by norm_num)⟩

/-! ## Claim C5 -/

/-- Claim C5 (confirmed): for valid battery parameters, every returned hour
record has nonnegative import and export, exact charge/discharge mutual
exclusion, and charge/discharge bounded by their caps — on the heuristic
path and for every MILP-feasible assignment. -/
theorem C5_schedule_invariants :
    (∀ prices pv load c out, validConstraints c →
      solve_heuristic prices pv load c = Except.ok out →
      ∀ p ∈ out.schedule,
        0 ≤ p.import_kw ∧ 0 ≤ p.export_kw ∧ p.charge_kw * p.discharge_kw = 0 ∧
        p.charge_kw ≤ cget c.P_ch_max 5 ∧ p.discharge_kw ≤ cget c.P_dis_max 5) ∧
    (∀ prices pv load c a, milpFeasible prices pv load c a →
      ∀ t, t < prices.length →
        0 ≤ a.pimp t ∧ 0 ≤ a.pexp t ∧ a.pch t * a.pdis t = 0 ∧
        a.pch t ≤ cget c.P_ch_max 5 ∧ a.pdis t ≤ cget c.P_dis_max 5) := by
  constructor
  · intro prices pv load c out hv hok p hp
    obtain ⟨h0, sched, socs, hr, hsched, hsocs⟩ := solve_heuristic_ok_inv hok
    rw [hsched] at hp
    have hprops := (heurRun_ok_props hv hr (by norm_num [initSoc])
      (by norm_num [initSoc])).2 p hp
    exact ⟨hprops.1, hprops.2.1, hprops.2.2.1, hprops.2.2.2.1, hprops.2.2.2.2.1⟩
  · intro prices pv load c a hf t ht
    have h := hf.1 t ht
    exact ⟨h.2.2.1, h.2.2.2.1.1, milp_mutual_exclusion hf ht, h.1.2, h.2.1.2⟩

/-- Claim C5 witness: both parts of `C5_schedule_invariants` applied at
concrete inputs. -/
theorem C5_witness :
    ((0 : ℚ) ≤ 3/5 ∧ (0 : ℚ) ≤ 0 ∧ (0 : ℚ) * 0 = 0 ∧
      (0 : ℚ) ≤ cget noConstraints.P_ch_max 5 ∧
      (0 : ℚ) ≤ cget noConstraints.P_dis_max 5) ∧
    ((0 : ℚ) ≤ 0 ∧ (0 : ℚ) ≤ 0 ∧ (0 : ℚ) * 0 = 0 ∧
      (0 : ℚ) ≤ cget noConstraints.P_ch_max 5 ∧
      (0 : ℚ) ≤ cget noConstraints.P_dis_max 5) :=
  ⟨C5_schedule_invariants.1 specPrices specPv specLoad noConstraints specOut
      valid_noConstraints heur_eval_spec ⟨0, 0, 0, 3/5, 0⟩ (by norm_num [specOut]),
   C5_schedule_invariants.2 [1] [0] [0] noConstraints zeroAssign
      zeroAssign_feasible 0 (by norm_num)⟩

/-! ## Claim C9 -/

/-- Claim C9 (amended): the returned SoC series has length T, not T+1; on
the exact path its first element is the fixed initial SoC 0.5, while on the
heuristic path each element is the post-hour SoC (the spec scenario yields
length 4 starting at 0.5 only because hour 0 holds). -/
theorem C9_soc_series_shape :
    (∀ prices pv load c out, solve_heuristic prices pv load c = Except.ok out →
      out.soc_series.length = prices.length) ∧
    (∀ prices pv load c a, milpFeasible prices pv load c a →
      (milpSocSeries a prices.length).length = prices.length ∧
      (0 < prices.length → (milpSocSeries a prices.length).getD 0 0 = 1/2)) := by
  constructor
  · intro prices pv load c out hok
    obtain ⟨h0, sched, socs, hr, hsched, hsocs⟩ := solve_heuristic_ok_inv hok
    rw [hsocs]
    exact (heurRun_ok_lengths hr).2
  · intro prices pv load c a hf
    refine ⟨by simp [milpSocSeries], ?_⟩
    intro hT
    have h0 : a.soc 0 = 1/2 := hf.2 hT
    rw [milpSocSeries, List.getD_eq_getElem?_getD, List.getElem?_map]
    cases hn : prices.length with
    | zero => omega
    | succ n =>
      simp [List.getElem?_range, h0]

/-- Claim C9 counterexample: on the spec's T=4 scenario the heuristic SoC
series has length 4, not the claimed T+1 = 5. -/
theorem C9_counterexample :
    solve_heuristic specPrices specPv specLoad noConstraints = Except.ok specOut ∧
    specOut.soc_series.length = 4 ∧ (4 : ℕ) ≠ 5 := by
  refine ⟨heur_eval_spec, by norm_num [specOut], by norm_num⟩

/-- Claim C9 witness: both parts of `C9_soc_series_shape` applied at
concrete inputs. -/
theorem C9_witness :
    specOut.soc_series.length = specPrices.length ∧
    ((milpSocSeries zeroAssign ([1] : List ℚ).length).length
        = ([1] : List ℚ).length ∧
      (0 < ([1] : List ℚ).length →
        (milpSocSeries zeroAssign ([1] : List ℚ).length).getD 0 0 = 1/2)) :=
  ⟨C9_soc_series_shape.1 specPrices specPv specLoad noConstraints specOut
      heur_eval_spec,
   C9_soc_series_shape.2 [1] [0] [0] noConstraints zeroAssign
      zeroAssign_feasible⟩

/-! ## Dispatch router claims -/

/-- A fixed all-zeros bit source for concrete runs. -/
def g0 : ℕ → ℕ → Bool := fun _ _ => false

/-- The annealing callable in its in-repo fallback configuration. -/
def mockAnnealFn : Qubo → List Bool × ℚ := solve_mock_anneal g0

/-- The QAOA callable in its in-repo fallback configuration. -/
def mockQaoaFn : Qubo → List Bool × ℚ := solve_mock_qaoa g0

/-- Claim C1 (amended): when the exact LP/MILP capability is unavailable
(import failure, no solver instance, solver exception) or returns
non-OPTIMAL, a solver="milp" request executes the heuristic fallback, but
the returned result's `solver` field still reports "milp" — the requested
backend — not the heuristic path that actually executed. -/
theorem C1_fallback_reports_milp :
    ∀ (ex : ExactOutcome) (annealFn qaoaFn : Qubo → List Bool × ℚ)
      (req : DispatchReq) (out : HeurOut),
      (ex = ExactOutcome.unavailable ∨ ex = ExactOutcome.failure ∨
        ex = ExactOutcome.nonOptimal) →
      req.solver = "milp" →
      solve_heuristic req.prices req.pv req.load req.constraints
        = Except.ok out →
      dispatch ex annealFn qaoaFn req = Response.schedRes out "milp" := by
  intro ex annealFn qaoaFn req out hex hs hok
  have hm : solve_milp ex req.prices req.pv req.load req.constraints
      = Except.ok out := by
    rcases hex with h | h | h <;> subst h <;> simpa [solve_milp] using hok
  simp [dispatch, hs, hm]

/-- Claim C1 counterexample: with the exact capability unavailable, a
solver="milp" request returns exactly the heuristic result, yet its `solver`
field is "milp", not a heuristic identifier. -/
theorem C1_counterexample :
    dispatch ExactOutcome.unavailable mockAnnealFn mockQaoaFn
        ⟨[1], [0], [0], noConstraints, "milp"⟩
      = Response.schedRes ⟨[⟨0, 0, 0, 0, 0⟩], [1/2], 0⟩ "milp" ∧
    solve_heuristic [1] [0] [0] noConstraints
      = Except.ok ⟨[⟨0, 0, 0, 0, 0⟩], [1/2], 0⟩ ∧
    solverField (dispatch ExactOutcome.unavailable mockAnnealFn mockQaoaFn
        ⟨[1], [0], [0], noConstraints, "milp"⟩) = some "milp" := by
  refine ⟨?_, heur_eval_idle, ?_⟩
  · simp [dispatch, solve_milp, heur_eval_idle]
  · simp [dispatch, solve_milp, heur_eval_idle, solverField]

/-- Claim C1 witness: `C1_fallback_reports_milp` applied at a concrete
request with the capability unavailable. -/
theorem C1_witness :
    dispatch ExactOutcome.unavailable mockAnnealFn mockQaoaFn
        ⟨[1], [0], [0], noConstraints, "milp"⟩
      = Response.schedRes ⟨[⟨0, 0, 0, 0, 0⟩], [1/2], 0⟩ "milp" :=
  C1_fallback_reports_milp ExactOutcome.unavailable mockAnnealFn mockQaoaFn
    ⟨[1], [0], [0], noConstraints, "milp"⟩ ⟨[⟨0, 0, 0, 0, 0⟩], [1/2], 0⟩
    (Or.inl rfl) rfl heur_eval_idle

/-- Claim C6 (amended): an unrecognized solver identifier yields the
error dict `{"error": "Unknown solver: <id>"}` — the identifier is embedded
in the message but the response carries no `solver` field — and no fallback
solver is attempted (the error dict is returned directly). -/
theorem C6_unknown_solver :
    ∀ (ex : ExactOutcome) (annealFn qaoaFn : Qubo → List Bool × ℚ)
      (req : DispatchReq),
      req.solver ≠ "milp" → req.solver ≠ "qaoa" → req.solver ≠ "anneal" →
      dispatch ex annealFn qaoaFn req
        = Response.errorOnly ("Unknown solver: " ++ req.solver) ∧
      solverField (dispatch ex annealFn qaoaFn req) = none := by
  intro ex annealFn qaoaFn req h1 h2 h3
  constructor
  · simp [dispatch, h1, h2, h3]
  · simp [dispatch, h1, h2, h3, solverField]

/-- Claim C6 counterexample: for solver="teleport" the response is the
error dict with no `solver` field — `solverField` is `none`, refuting that
the requested identifier is carried in a `solver` field. -/
theorem C6_counterexample :
    dispatch ExactOutcome.unavailable mockAnnealFn mockQaoaFn
        ⟨[1], [0], [0], noConstraints, "teleport"⟩
      = Response.errorOnly "Unknown solver: teleport" ∧
    solverField (dispatch ExactOutcome.unavailable mockAnnealFn mockQaoaFn
        ⟨[1], [0], [0], noConstraints, "teleport"⟩) = none := by
  constructor
  · simp [dispatch, solverField]
  · simp [dispatch, solverField]

/-- Claim C6 witness: `C6_unknown_solver` applied at solver="teleport". -/
theorem C6_witness :
    dispatch ExactOutcome.unavailable mockAnnealFn mockQaoaFn
        ⟨[1], [0], [0], noConstraints, "teleport"⟩
      = Response.errorOnly ("Unknown solver: " ++ "teleport") ∧
    solverField (dispatch ExactOutcome.unavailable mockAnnealFn mockQaoaFn
        ⟨[1], [0], [0], noConstraints, "teleport"⟩) = none :=
  C6_unknown_solver ExactOutcome.unavailable mockAnnealFn mockQaoaFn
    ⟨[1], [0], [0], noConstraints, "teleport"⟩
    (by decide) (by decide) (by decide)

/-- Claim C7 (amended): with the exact capability unavailable, empty prices
on the milp path surface as the exception-handler error dict (a
ZeroDivisionError from the average-price division) carrying the requested
solver; but an empty-prices "anneal" request succeeds with the degenerate
mock result, and efficiency factors outside (0,1] are never validated —
a request with any eta values still succeeds. -/
theorem C7_input_validation :
    (∀ (pv load : List ℚ) (c : Constraints)
      (annealFn qaoaFn : Qubo → List Bool × ℚ),
      dispatch ExactOutcome.unavailable annealFn qaoaFn
          ⟨[], pv, load, c, "milp"⟩
        = Response.errorSolver "ZeroDivisionError" "milp") ∧
    (∀ (g : ℕ → ℕ → Bool) (qaoaFn : Qubo → List Bool × ℚ),
      dispatch ExactOutcome.unavailable (solve_mock_anneal g) qaoaFn
          ⟨[], [], [], noConstraints, "anneal"⟩
        = Response.quantumRes [true, false, true, false, true, false]
            (-5/2) "anneal") ∧
    (∀ e1 e2 : ℚ,
      isError (dispatch ExactOutcome.unavailable mockAnnealFn mockQaoaFn
        ⟨[1, 1], [0, 0], [0, 0],
          ⟨none, none, none, none, some e1, some e2, none⟩, "milp"⟩) = false) := by
  refine ⟨?_, ?_, ?_⟩
  · intro pv load c annealFn qaoaFn
    simp [dispatch, solve_milp, solve_heuristic]
  · intro g qaoaFn
    simp [dispatch, build_qubo, solve_mock_anneal, quboVars, sortStr, dedupStr]
  · intro e1 e2
    norm_num [dispatch, solve_milp, solve_heuristic, heurRun, heurStep, getIdx,
      cget, initSoc, isError, heurCost]

/-- Claim C7 counterexample: a request whose efficiency factors are 2
(outside (0,1]) is not rejected — the dispatch succeeds with a schedule,
refuting that such inputs fail with an InvalidInput error. -/
theorem C7_counterexample :
    isError (dispatch ExactOutcome.unavailable mockAnnealFn mockQaoaFn
      ⟨[1, 1], [0, 0], [0, 0],
        ⟨none, none, none, none, some 2, some 2, none⟩, "milp"⟩) = false := by
  norm_num [dispatch, solve_milp, solve_heuristic, heurRun, heurStep, getIdx,
    cget, initSoc, isError, heurCost]

/-! ## QUBO builder claims: variable-name injectivity and structure -/

theorem digitChar_inj :
    ∀ d, d < 10 → ∀ e, e < 10 → digitChar d = digitChar e → d = e := by decide

theorem map_digitChar_inj :
    ∀ (l1 l2 : List ℕ), (∀ x ∈ l1, x < 10) → (∀ x ∈ l2, x < 10) →
    l1.map digitChar = l2.map digitChar → l1 = l2 := by
  intro l1
  induction l1 with
  | nil =>
    intro l2 _ _ h
    cases l2 with
    | nil => rfl
    | cons b bs => simp at h
  | cons a as ih =>
    intro l2 h1 h2 h
    cases l2 with
    | nil => simp at h
    | cons b bs =>
      simp only [List.map_cons, List.cons.injEq] at h
      have ha : a = b := digitChar_inj a (h1 a (by simp)) b (h2 b (by simp)) h.1
      rw [ha, ih bs (fun x hx => h1 x (by simp [hx]))
        (fun x hx => h2 x (by simp [hx])) h.2]

theorem natDigitsAux_le_eq_digits :
    ∀ (fuel n : ℕ), n ≤ fuel → natDigitsAux fuel n = Nat.digits 10 n := by
  intro fuel
  induction fuel with
  | zero =>
    intro n hn
    have h0 : n = 0 := by omega
    subst h0
    simp [natDigitsAux]
  | succ f ih =>
    intro n hn
    cases n with
    | zero => simp [natDigitsAux]
    | succ m =>
      rw [natDigitsAux, Nat.digits_def' (by norm_num : (1 : ℕ) < 10)
        (Nat.succ_pos m)]
      have hlt : (m + 1) / 10 < m + 1 := Nat.div_lt_self (Nat.succ_pos m) (by norm_num)
      rw [ih ((m + 1) / 10) (by omega)]

theorem natDigitsAux_eq_digits (n : ℕ) : natDigitsAux n n = Nat.digits 10 n :=
  natDigitsAux_le_eq_digits n n le_rfl

theorem natStr_inj : ∀ {m n : ℕ}, natStr m = natStr n → m = n := by
  have key : ∀ n, n ≠ 0 →
      String.mk ((Nat.digits 10 n).reverse.map digitChar) ≠ "0" := by
    intro n hn h
    have hd : ((Nat.digits 10 n).reverse.map digitChar) = ("0" : String).data :=
      congrArg String.data h
    have h0 : ("0" : String).data = ([0] : List ℕ).map digitChar := rfl
    rw [h0] at hd
    have hrev : (Nat.digits 10 n).reverse = [0] :=
      map_digitChar_inj _ _
        (fun x hx => Nat.digits_lt_base (by norm_num) (List.mem_reverse.mp hx))
        (by intro x hx; simp at hx; omega) hd
    have hdig : Nat.digits 10 n = [0] := by
      have := congrArg List.reverse hrev
      simpa using this
    have : n = 0 := by
      have hof := Nat.ofDigits_digits 10 n
      rw [hdig] at hof
      simpa [Nat.ofDigits] using hof.symm
    exact hn this
  intro m n h
  unfold natStr at h
  simp only [natDigitsAux_eq_digits] at h
  split_ifs at h with hm hn hn
  · omega
  · exact absurd h.symm (key n hn)
  · exact absurd h (key m hm)
  · have hd : ((Nat.digits 10 m).reverse.map digitChar)
        = ((Nat.digits 10 n).reverse.map digitChar) := congrArg String.data h
    have hrev : (Nat.digits 10 m).reverse = (Nat.digits 10 n).reverse :=
      map_digitChar_inj _ _
        (fun x hx => Nat.digits_lt_base (by norm_num) (List.mem_reverse.mp hx))
        (fun x hx => Nat.digits_lt_base (by norm_num) (List.mem_reverse.mp hx)) hd
    have hdig : Nat.digits 10 m = Nat.digits 10 n := by
      have := congrArg List.reverse hrev
      simpa using this
    have hof := Nat.ofDigits_digits 10 m
    rw [hdig, Nat.ofDigits_digits] at hof
    exact hof.symm

theorem chName_inj {t u : ℕ} (h : chName t = chName u) : t = u := by
  apply natStr_inj
  apply String.ext
  have hd := congrArg String.data h
  simp only [chName, String.data_append] at hd
  exact List.append_cancel_left hd

theorem disName_inj {t u : ℕ} (h : disName t = disName u) : t = u := by
  apply natStr_inj
  apply String.ext
  have hd := congrArg String.data h
  simp only [disName, String.data_append] at hd
  exact List.append_cancel_left hd

theorem chName_ne_disName (t u : ℕ) : chName t ≠ disName u := by
  intro h
  have hd := congrArg String.data h
  simp only [chName, disName, String.data_append] at hd
  simp at hd

theorem length_flatMap_const {β : Type} (f : ℕ → List β) (k : ℕ)
    (hf : ∀ t, (f t).length = k) (n : ℕ) :
    ((List.range n).flatMap f).length = k * n := by
  induction n with
  | zero => simp
  | succ m ih =>
    rw [List.range_succ, List.flatMap_append, List.length_append, ih]
    simp [hf]
    ring

theorem build_qubo_length (prices pv load : List ℚ) (c : Constraints) :
    (build_qubo prices pv load c).length = 3 * prices.length := by
  unfold build_qubo
  apply length_flatMap_const
  intro t
  rfl

theorem build_qubo_keys_nodup (prices pv load : List ℚ) (c : Constraints) :
    ((build_qubo prices pv load c).map Prod.fst).Nodup := by
  unfold build_qubo
  rw [List.map_flatMap, List.nodup_flatMap]
  constructor
  · intro t ht
    simp only [List.map_cons, List.map_nil]
    have hcd : chName t ≠ disName t := chName_ne_disName t t
    refine List.nodup_cons.mpr ⟨?_, List.nodup_cons.mpr ⟨?_, List.nodup_singleton _⟩⟩
    · intro hmem
      simp only [List.mem_cons, List.mem_singleton, Prod.mk.injEq,
        List.not_mem_nil, or_false] at hmem
      rcases hmem with ⟨h1, _⟩ | ⟨_, h2⟩
      · exact hcd h1
      · exact hcd h2
    · intro hmem
      simp only [List.mem_singleton, Prod.mk.injEq] at hmem
      exact hcd hmem.1.symm
  · have hpl := List.pairwise_lt_range prices.length
    apply hpl.imp
    intro t u htu
    intro x hxt hxu
    have htne : t ≠ u := Nat.ne_of_lt htu
    simp only [Function.onFun, List.map_cons, List.map_nil, List.mem_cons,
      List.mem_singleton, List.not_mem_nil, or_false] at hxt hxu
    rcases hxt with rfl | rfl | rfl <;>
      rcases hxu with h | h | h <;>
      simp only [Prod.mk.injEq] at h
    · exact htne (chName_inj h.1)
    · exact chName_ne_disName t u h.1
    · exact htne (chName_inj h.1)
    · exact chName_ne_disName u t h.1.symm
    · exact htne (disName_inj h.1)
    · exact chName_ne_disName u t h.1.symm
    · exact htne (chName_inj h.1)
    · exact chName_ne_disName t u h.1
    · exact htne (chName_inj h.1)

theorem build_qubo_mem (prices pv load : List ℚ) (c : Constraints)
    {t : ℕ} (ht : t < prices.length) :
    ((chName t, chName t),
      prices.getD t 0 * cget c.P_ch_max 5 / cget c.eta_ch (19/20))
        ∈ build_qubo prices pv load c ∧
    ((disName t, disName t),
      -prices.getD t 0 * cget c.P_dis_max 5 * cget c.eta_dis (19/20))
        ∈ build_qubo prices pv load c ∧
    ((chName t, disName t), quboPenalty) ∈ build_qubo prices pv load c := by
  unfold build_qubo
  refine ⟨List.mem_flatMap.mpr ⟨t, List.mem_range.mpr ht, by simp⟩,
    List.mem_flatMap.mpr ⟨t, List.mem_range.mpr ht, by simp⟩,
    List.mem_flatMap.mpr ⟨t, List.mem_range.mpr ht, by simp⟩⟩

/-- Claim C8 (amended): `build_qubo` emits exactly three entries per hour —
the diagonal charge term price[t]·(P_ch_max/eta_ch), the diagonal discharge
term −price[t]·(P_dis_max·eta_dis), and one mutual-exclusion penalty entry —
with all 3T keys pairwise distinct; but the penalty is the fixed constant
1000, which does not in general dominate the diagonal magnitudes. -/
theorem C8_qubo_structure :
    ∀ (prices pv load : List ℚ) (c : Constraints),
      (build_qubo prices pv load c).length = 3 * prices.length ∧
      ((build_qubo prices pv load c).map Prod.fst).Nodup ∧
      quboPenalty = 1000 ∧
      (∀ t, t < prices.length →
        ((chName t, chName t),
          prices.getD t 0 * cget c.P_ch_max 5 / cget c.eta_ch (19/20))
            ∈ build_qubo prices pv load c ∧
        ((disName t, disName t),
          -prices.getD t 0 * cget c.P_dis_max 5 * cget c.eta_dis (19/20))
            ∈ build_qubo prices pv load c ∧
        ((chName t, disName t), quboPenalty) ∈ build_qubo prices pv load c) :=
  fun prices pv load c =>
    ⟨build_qubo_length prices pv load c,
     build_qubo_keys_nodup prices pv load c,
     rfl,
     fun _ ht => build_qubo_mem prices pv load c ht⟩

/-- Claim C8 counterexample: at price 1000 with default constraints the
diagonal charge coefficient is 1000·5/0.95 = 100000/19 ≈ 5263, and the
penalty 1000 is not strictly greater than that magnitude. -/
theorem C8_counterexample :
    build_qubo [1000] [] [] noConstraints
      = [((chName 0, chName 0), 100000/19),
         ((disName 0, disName 0), -4750),
         ((chName 0, disName 0), quboPenalty)] ∧
    ¬ quboPenalty > |(100000 : ℚ)/19| := by
  constructor
  · norm_num [build_qubo, cget, noConstraints, quboPenalty, List.range_succ]
  · rw [abs_of_nonneg (by norm_num)]
    norm_num [quboPenalty]

/-- Claim C8 witness: the per-hour membership part of `C8_qubo_structure`
applied at a one-hour input. -/
theorem C8_witness :
    ((chName 0, chName 0),
      ([1] : List ℚ).getD 0 0 * cget noConstraints.P_ch_max 5
        / cget noConstraints.eta_ch (19/20)) ∈ build_qubo [1] [] [] noConstraints ∧
    ((disName 0, disName 0),
      -([1] : List ℚ).getD 0 0 * cget noConstraints.P_dis_max 5
        * cget noConstraints.eta_dis (19/20)) ∈ build_qubo [1] [] [] noConstraints ∧
    ((chName 0, disName 0), quboPenalty) ∈ build_qubo [1] [] [] noConstraints :=
  (C8_qubo_structure [1] [] [] noConstraints).2.2.2 0 (by norm_num)

/-! ## Approximate solver energy lemmas -/

theorem qubo_energy_eq_sum (Q : Qubo) (a : List (String × ℚ)) :
    qubo_energy Q a
      = (Q.map (fun e =>
          e.2 * ((a.lookup e.1.1).getD 0) * ((a.lookup e.1.2).getD 0))).sum := by
  have key : ∀ (l : Qubo) (init : ℚ),
      l.foldl (fun acc e =>
        acc + e.2 * ((a.lookup e.1.1).getD 0) * ((a.lookup e.1.2).getD 0)) init
      = init + (l.map (fun e =>
          e.2 * ((a.lookup e.1.1).getD 0) * ((a.lookup e.1.2).getD 0))).sum := by
    intro l
    induction l with
    | nil => intro init; simp
    | cons e es ih =>
      intro init
      simp only [List.foldl_cons, List.map_cons, List.sum_cons, ih]
      ring
  unfold qubo_energy
  rw [key]
  ring

theorem drawBits_length (g : ℕ → ℕ → Bool) (k n : ℕ) :
    (drawBits g k n).length = n := by
  simp [drawBits]

theorem anneal_fold_invariant (g : ℕ → ℕ → Bool) (Q : Qubo) (vs : List String)
    (n : ℕ) :
    ∀ (l : List ℕ) (best : List Bool × ℚ),
      best.2 = qubo_energy Q (bitsToAssign vs best.1) → best.1.length = n →
      (l.foldl (annealStep g Q vs n) best).2
        = qubo_energy Q (bitsToAssign vs (l.foldl (annealStep g Q vs n) best).1) ∧
      (l.foldl (annealStep g Q vs n) best).1.length = n := by
  intro l
  induction l with
  | nil =>
    intro best h1 h2
    exact ⟨h1, h2⟩
  | cons k ks ih =>
    intro best h1 h2
    simp only [List.foldl_cons]
    by_cases hc : qubo_energy Q (bitsToAssign vs (drawBits g (k + 1) n)) < best.2
    · refine ih _ ?_ ?_
      · simp only [annealStep]
        rw [if_pos hc]
      · simp only [annealStep]
        rw [if_pos hc]
        exact drawBits_length g (k + 1) n
    · refine ih _ ?_ ?_
      · simp only [annealStep]
        rw [if_neg hc]
        exact h1
      · simp only [annealStep]
        rw [if_neg hc]
        exact h2

theorem solve_mock_anneal_energy (g : ℕ → ℕ → Bool) (Q : Qubo)
    (h : quboVars Q ≠ []) :
    (solve_mock_anneal g Q).2 = recomputeEnergy Q (solve_mock_anneal g Q).1 ∧
    (solve_mock_anneal g Q).1.length = (quboVars Q).length := by
  unfold solve_mock_anneal
  rw [if_neg (by simpa [List.isEmpty_iff] using h)]
  have hinv := anneal_fold_invariant g Q (quboVars Q) (quboVars Q).length
    (List.range 20)
    ((drawBits g 0 (quboVars Q).length),
      qubo_energy Q (bitsToAssign (quboVars Q) (drawBits g 0 (quboVars Q).length)))
    rfl (drawBits_length g 0 _)
  exact ⟨hinv.1, hinv.2⟩

theorem zip_eq_zip_take {α β : Type} :
    ∀ (l1 : List α) (l2 : List β), l1.zip l2 = (l1.take l2.length).zip l2 := by
  intro l1
  induction l1 with
  | nil => intro l2; simp
  | cons a as ih =>
    intro l2
    cases l2 with
    | nil => simp
    | cons b bs => simp [ih bs]

theorem qubo_energy_filter_bothAssigned (Q : Qubo) (a : List (String × ℚ)) :
    qubo_energy (Q.filter (bothAssigned a)) a = qubo_energy Q a := by
  rw [qubo_energy_eq_sum, qubo_energy_eq_sum]
  induction Q with
  | nil => simp
  | cons e es ih =>
    by_cases hb : bothAssigned a e
    · simp only [List.filter_cons, hb, if_pos, List.map_cons, List.sum_cons]
      rw [ih]
    · have hz : e.2 * ((a.lookup e.1.1).getD 0) * ((a.lookup e.1.2).getD 0) = 0 := by
        unfold bothAssigned at hb
        simp only [Bool.and_eq_true, not_and] at hb
        cases hl1 : a.lookup e.1.1 with
        | none => simp
        | some v =>
          have hl2 := hb (by simp [hl1])
          cases hl2' : a.lookup e.1.2 with
          | none => simp
          | some w =>
            rw [hl2'] at hl2
            simp at hl2
      simp only [List.filter_cons, hb, List.map_cons, List.sum_cons]
      simp only [Bool.false_eq_true, if_false]
      rw [ih, hz]
      ring

theorem solve_qubo_qaoa_qiskit_spec (g : ℕ → ℕ → Bool) (Q : Qubo) :
    (solve_qubo_qaoa_qiskit g Q).1.length = min (quboVars Q).length 8 ∧
    (solve_qubo_qaoa_qiskit g Q).2
      = recomputeEnergy Q (solve_qubo_qaoa_qiskit g Q).1 := by
  unfold solve_qubo_qaoa_qiskit
  by_cases h0 : min (quboVars Q).length 8 = 0
  · rw [if_pos h0]
    constructor
    · simpa using h0.symm
    · rw [recomputeEnergy]
      have ha : bitsToAssign (quboVars Q) ([] : List Bool) = [] := by
        simp [bitsToAssign]
      rw [ha, qubo_energy_eq_sum]
      refine (List.sum_eq_zero ?_).symm
      intro x hx
      simp only [List.mem_map] at hx
      obtain ⟨e, he, rfl⟩ := hx
      simp [List.lookup]
  · rw [if_neg h0]
    constructor
    · simp [drawBits_length]
    · dsimp only
      rw [qubo_energy_filter_bothAssigned, recomputeEnergy]
      congr 1
      unfold bitsToAssign
      rw [zip_eq_zip_take (quboVars Q)]
      simp [drawBits_length]

theorem solve_mock_qaoa_energy (g : ℕ → ℕ → Bool) (Q : Qubo)
    (h : quboVars Q ≠ []) :
    (solve_mock_qaoa g Q).2 = recomputeEnergy Q (solve_mock_qaoa g Q).1 ∧
    (solve_mock_qaoa g Q).1.length = (quboVars Q).length := by
  unfold solve_mock_qaoa
  rw [if_neg (by simpa [List.isEmpty_iff] using h)]
  exact ⟨rfl, drawBits_length g 0 _⟩

/-! ## Claim C2 -/

/-- Claim C2 (amended): whenever the QUBO references at least one variable,
the energy reported by the mock annealer, by the qiskit QAOA branch, and by
the mock QAOA all equal the energy recomputed from the returned bitstring
and the original QUBO by `sum coeff * assignment(i) * assignment(j)` (with
unassigned variables contributing 0); the empty-variable degenerate results
hardcode energies (-2.5 and -2.0) that do not match the formula's 0. -/
theorem C2_energy_consistency :
    ∀ (g : ℕ → ℕ → Bool) (Q : Qubo), quboVars Q ≠ [] →
      (solve_mock_anneal g Q).2 = recomputeEnergy Q (solve_mock_anneal g Q).1 ∧
      (solve_qubo_qaoa_qiskit g Q).2
        = recomputeEnergy Q (solve_qubo_qaoa_qiskit g Q).1 ∧
      (solve_mock_qaoa g Q).2 = recomputeEnergy Q (solve_mock_qaoa g Q).1 :=
  fun g Q h =>
    ⟨(solve_mock_anneal_energy g Q h).1,
     (solve_qubo_qaoa_qiskit_spec g Q).2,
     (solve_mock_qaoa_energy g Q h).1⟩

/-- Claim C2 counterexample: on the empty QUBO the mock annealer reports the
hardcoded energy -2.5, while the energy recomputed from its returned
bitstring and the (empty) QUBO by the formula is 0. -/
theorem C2_counterexample :
    (solve_mock_anneal g0 []).2 = -5/2 ∧
    recomputeEnergy [] (solve_mock_anneal g0 []).1 = 0 ∧
    ((-5 : ℚ)/2) ≠ 0 := by
  refine ⟨?_, ?_, by norm_num⟩
  · simp [solve_mock_anneal, quboVars, sortStr, dedupStr]
  · simp [recomputeEnergy, quboVars, sortStr, dedupStr, bitsToAssign, qubo_energy]

/-- A five-hour QUBO referencing ten distinct variables. -/
def tenVarQubo : Qubo := build_qubo [1, 1, 1, 1, 1] [] [] noConstraints

/-- Claim C2 witness: `C2_energy_consistency` applied at a one-hour QUBO
with a nonempty variable set. -/
theorem C2_witness :
    (solve_mock_anneal g0 (build_qubo [1] [] [] noConstraints)).2
      = recomputeEnergy (build_qubo [1] [] [] noConstraints)
          (solve_mock_anneal g0 (build_qubo [1] [] [] noConstraints)).1 ∧
    (solve_qubo_qaoa_qiskit g0 (build_qubo [1] [] [] noConstraints)).2
      = recomputeEnergy (build_qubo [1] [] [] noConstraints)
          (solve_qubo_qaoa_qiskit g0 (build_qubo [1] [] [] noConstraints)).1 ∧
    (solve_mock_qaoa g0 (build_qubo [1] [] [] noConstraints)).2
      = recomputeEnergy (build_qubo [1] [] [] noConstraints)
          (solve_mock_qaoa g0 (build_qubo [1] [] [] noConstraints)).1 :=
  C2_energy_consistency g0 (build_qubo [1] [] [] noConstraints) (by decide)

/-! ## Claim C10 -/

/-- Claim C10 (confirmed): the qiskit QAOA branch returns a bitstring of
length min(n, 8) over the n distinct referenced variables; for n > 8 it
assigns only the first 8 variables in sorted order and its energy sums only
QUBO terms with both endpoints among those 8, while the mock annealer's
bitstring covers all n variables — so the two bitstrings differ in length
for n > 8. -/
theorem C10_qaoa_variable_cap :
    ∀ (g : ℕ → ℕ → Bool) (Q : Qubo),
      (solve_qubo_qaoa_qiskit g Q).1.length = min (quboVars Q).length 8 ∧
      (quboVars Q ≠ [] →
        (solve_mock_anneal g Q).1.length = (quboVars Q).length) ∧
      (8 < (quboVars Q).length →
        (solve_qubo_qaoa_qiskit g Q).1.length = 8 ∧
        (solve_qubo_qaoa_qiskit g Q).2
          = qubo_energy
              (Q.filter (bothAssigned
                (bitsToAssign ((quboVars Q).take 8) (drawBits g 0 8))))
              (bitsToAssign ((quboVars Q).take 8) (drawBits g 0 8)) ∧
        (solve_qubo_qaoa_qiskit g Q).1.length
          ≠ (solve_mock_anneal g Q).1.length) := by
  intro g Q
  refine ⟨(solve_qubo_qaoa_qiskit_spec g Q).1, ?_, ?_⟩
  · intro h
    exact (solve_mock_anneal_energy g Q h).2
  · intro h8
    have hmin : min (quboVars Q).length 8 = 8 := min_eq_right (by omega)
    have hne : quboVars Q ≠ [] := by
      intro hq
      rw [hq] at h8
      simp at h8
    refine ⟨by rw [(solve_qubo_qaoa_qiskit_spec g Q).1, hmin], ?_, ?_⟩
    · unfold solve_qubo_qaoa_qiskit
      rw [if_neg (by omega)]
      dsimp only
      rw [hmin]
    · rw [(solve_qubo_qaoa_qiskit_spec g Q).1, hmin,
        (solve_mock_anneal_energy g Q hne).2]
      omega

/-- Claim C10 witness: `C10_qaoa_variable_cap` applied at a concrete QUBO
with ten distinct variables. -/
theorem C10_witness :
    (solve_qubo_qaoa_qiskit g0 tenVarQubo).1.length
      = min (quboVars tenVarQubo).length 8 ∧
    (solve_mock_anneal g0 tenVarQubo).1.length = (quboVars tenVarQubo).length ∧
    (solve_qubo_qaoa_qiskit g0 tenVarQubo).1.length
      ≠ (solve_mock_anneal g0 tenVarQubo).1.length :=
  ⟨(C10_qaoa_variable_cap g0 tenVarQubo).1,
   (C10_qaoa_variable_cap g0 tenVarQubo).2.1 (by decide),
   ((C10_qaoa_variable_cap g0 tenVarQubo).2.2 (by decide)).2.2⟩
